import Mathlib

/-!
Verification development for `src/runner.rs` of wasm-workers-server.

The runner loads an on-disk artifact (native Wasm module or JavaScript
source), classifies it from its path extension, and marshals HTTP requests
to the guest as JSON on stdin, reading a JSON response from stdout.

This file shallowly embeds the pure logic of `runner.rs`:
  * the Unix path-extension logic behind `Runner::is_js_file`
    (Rust `Path::extension` semantics),
  * the `Runner` record and the stdin preparation of `Runner::run`,
  * `Runner::new` with the filesystem and module compiler abstracted into
    an environment record (`none` models a panic, `Except.error` a
    returned error),
  * `build_headers_hash` over header lists whose values are byte lists
    (`HeaderValue::to_str` accepts exactly the visible-ASCII bytes),
  * the serde JSON wire codec for `WasmInput` / `WasmOutput` at the level
    of JSON values, and the serde_json serializer for the string-keyed
    fragment that `WasmInput` exercises.
-/

set_option maxHeartbeats 1000000

namespace WasmWorkers

/-! ### Unix path model: Rust `Path::components`, `file_name`, `extension` -/

/-- Split a character list on `/` separators, keeping empty pieces
(mirrors the raw splitting that Rust path component iteration starts from). -/
def splitOnSlash (cs : List Char) : List (List Char) :=
  cs.foldr
    (fun c acc =>
      if c = '/' then [] :: acc
      else
        match acc with
        | [] => [[c]]
        | a :: rest => (c :: a) :: rest)
    [[]]

/-- Rust `Path::components` on Unix: empty pieces and `.` pieces are
normalized away (for the purpose of `file_name`, which only looks at the
last component, dropping every `.` is equivalent to Rust's handling). -/
def pathComponents (p : String) : List (List Char) :=
  (splitOnSlash p.data).filter (fun c => !(c.isEmpty || c == ['.']))

/-- Rust `Path::file_name`: the last component, unless it is `..`. -/
def fileName (p : String) : Option (List Char) :=
  match (pathComponents p).getLast? with
  | some c => if c = ['.', '.'] then none else some c
  | none => none

/-- Walk a reversed file name accumulating the characters after the last
dot; `none` when there is no dot or the only dot starts the file name
(Rust: a file name beginning with `.` and having no other dot has no
extension). -/
def extRevAux : List Char → List Char → Option (List Char)
  | [], _ => none
  | c :: rest, acc =>
      if c = '.' then (if rest = [] then none else some acc)
      else extRevAux rest (c :: acc)

/-- Rust `Path::extension`. -/
def pathExtension (p : String) : Option (List Char) :=
  (fileName p).bind fun f => extRevAux f.reverse []

/-- `Runner::is_js_file`: the artifact classifier. `true` means the path is
handled as JavaScript, `false` as a native Wasm module. -/
def Runner.is_js_file (path : String) : Bool :=
  match pathExtension path with
  | some os_str => os_str == "js".data
  | none => false

/-! ### The `Runner` record and `Runner::new` -/

/-- `RunnerHandlerType` from the source. The spec calls the `Wasm` variant
`NativeWasm`. -/
inductive RunnerHandlerType where
  | Wasm
  | JavaScript
deriving DecidableEq

/-- Provenance of the precompiled module held by a `Runner`: either the
embedded JS engine bytes (`JS_ENGINE_WASM`) or the user artifact file. -/
inductive ModuleSource where
  | engineBytes
  | artifactFile (path : String)
deriving DecidableEq

/-- The `Runner` record (the wasmtime `Engine` handle is opaque and
carries no observable data, so it is omitted from the embedding). -/
structure Runner where
  runner_type : RunnerHandlerType
  module : ModuleSource
  source : String
deriving DecidableEq

/-- Errors surfaced by `Runner::new` through its `Result` (via `?`).
`artifactRead` is the error the spec prescribes for an unreadable file;
the source never actually constructs it. -/
inductive CreateError where
  | moduleCompile
  | artifactRead
deriving DecidableEq

/-- Abstraction of the ambient system for `Runner::new`:
`readToString path` is `fs::read_to_string` (`none` = read error),
`engineCompiles` is whether `Module::from_binary(JS_ENGINE_WASM)` succeeds,
`fileCompiles path` is whether `Module::from_file(path)` succeeds. -/
structure SysEnv where
  readToString : String → Option String
  engineCompiles : Bool
  fileCompiles : String → Bool

/-- `Runner::new`. The outer `Option` models process abort: `none` is a
panic (the `.expect` on `fs::read_to_string`); `some (Except.error e)` is
an error returned to the caller; `some (Except.ok r)` is success. -/
def Runner.new (env : SysEnv) (path : String) : Option (Except CreateError Runner) :=
  if Runner.is_js_file path then
    if env.engineCompiles then
      match env.readToString path with
      | some contents =>
          some (Except.ok ⟨RunnerHandlerType.JavaScript, ModuleSource.engineBytes, contents⟩)
      | none => none
    else some (Except.error CreateError.moduleCompile)
  else
    if env.fileCompiles path then
      some (Except.ok ⟨RunnerHandlerType.Wasm, ModuleSource.artifactFile path, ""⟩)
    else some (Except.error CreateError.moduleCompile)

/-- The stdin pipe contents prepared at the start of `Runner::run`:
the input JSON alone for a Wasm runner, and
`source ++ "[[[input]]]" ++ input` for a JavaScript runner. -/
def Runner.stdinContents (r : Runner) (input : String) : String :=
  match r.runner_type with
  | RunnerHandlerType.Wasm => input
  | RunnerHandlerType.JavaScript => r.source ++ "[[[input]]]" ++ input

/-! ### Headers adapter: `build_headers_hash` -/

/-- `http::HeaderValue::to_str`: succeeds exactly when every byte is
visible ASCII (32..126) or horizontal tab (9); the resulting text is the
bytes read as characters. -/
def headerValueToStr (v : List Nat) : Option String :=
  if v.all (fun b => (decide (32 ≤ b) && decide (b < 127)) || b == 9) then
    some (String.mk (v.map Char.ofNat))
  else none

/-- `HashMap::insert` on an association list: replace the value of an
existing key, otherwise append the new pair. -/
def insertKV : List (String × String) → String → String → List (String × String)
  | [], k, v => [(k, v)]
  | p :: rest, k, v => if p.1 == k then (k, v) :: rest else p :: insertKV rest k v

/-- `build_headers_hash`: iterate the header collection, converting each
value with `to_str` and inserting into the map. The source unwraps the
conversion; `none` models that panic. -/
def build_headers_hash (headers : List (String × List Nat)) : Option (List (String × String)) :=
  headers.foldl
    (fun acc kv =>
      acc.bind fun parsed => (headerValueToStr kv.2).map fun s => insertKV parsed kv.1 s)
    (some [])

/-! ### JSON wire codec: serde at the level of JSON values -/

/-- A JSON number as serde_json sees it after parsing: an integer literal
(within the 64-bit ranges) or a literal with a decimal point or exponent
(`float m e` denotes the value `m * 10 ^ (-(e : Int))`; for deserializing
an integer type, only the constructor matters: serde rejects any float). -/
inductive JNum where
  | int : Int → JNum
  | float : Int → Nat → JNum

/-- JSON values. Objects keep their textual field order. -/
inductive Json where
  | null : Json
  | bool : Bool → Json
  | num : JNum → Json
  | str : String → Json
  | arr : List Json → Json
  | obj : List (String × Json) → Json

/-- Field lookup in a JSON object by name (first match). The derived
serde `Deserialize` for a struct fills each field slot from its
occurrence in the object; because the deserializers below reject any
object in which a known field occurs twice (serde's `duplicate field`
error), on every accepted object the occurrence is unique and first-match
lookup is exact. -/
def jGet (fields : List (String × Json)) (key : String) : Option Json :=
  List.lookup key fields

/-- Number of occurrences of a field name in a JSON object, used to
model serde's `duplicate field` error for known struct fields. -/
def fieldCount (fields : List (String × Json)) (key : String) : Nat :=
  (fields.filter fun p => p.1 == key).length

/-- serde: deserialize a `String` from a JSON value. -/
def decodeStr : Json → Option String
  | Json.str s => some s
  | _ => none

/-- serde: deserialize a `u16` from a JSON value: only integer literals in
`0..=65535` are accepted; negative integers, floats and non-numbers are
type or range errors. -/
def decodeU16 : Json → Option Nat
  | Json.num (JNum.int n) => if 0 ≤ n ∧ n ≤ 65535 then some n.toNat else none
  | _ => none

/-- serde: deserialize a `HashMap<String, String>`: the value must be an
object, every field value must be a string, and entries are inserted in
order (later duplicates overwrite). -/
def decodeStrMap : Json → Option (List (String × String))
  | Json.obj fields =>
      fields.foldl
        (fun acc p =>
          acc.bind fun m =>
            match p.2 with
            | Json.str s => some (insertKV m p.1 s)
            | _ => none)
        (some [])
  | _ => none

/-- serde: serialize a `HashMap<String, String>` as a JSON object. -/
def encodeStrMap (m : List (String × String)) : Json :=
  Json.obj (m.map fun p => (p.1, Json.str p.2))

/-- `WasmInput` from the source: the wire message sent to the guest.
The two maps are association lists standing for `HashMap<String, String>`. -/
structure WasmInput where
  url : String
  method : String
  headers : List (String × String)
  body : String
  kv : List (String × String)
deriving DecidableEq

/-- The derived serde `Serialize` for `WasmInput`: an object with the five
fields in declaration order. -/
def WasmInput.toJson (w : WasmInput) : Json :=
  Json.obj
    [("url", Json.str w.url),
     ("method", Json.str w.method),
     ("headers", encodeStrMap w.headers),
     ("body", Json.str w.body),
     ("kv", encodeStrMap w.kv)]

/-- The derived serde `Deserialize` for `WasmInput`: all five fields are
required; unknown fields (even repeated ones) are ignored; a known field
occurring twice is serde's `duplicate field` error. The generated code
walks entries in order and fails at the first duplicate known field,
undecodable value, or (at the end) missing field; since this model
conflates every failure into `none`, the occurrence-count guard plus
unique-occurrence lookups below is failure-for-failure equivalent to that
sequential walk. -/
def WasmInput.fromJson (j : Json) : Option WasmInput :=
  match j with
  | Json.obj fields =>
      if fieldCount fields "url" ≤ 1 ∧ fieldCount fields "method" ≤ 1 ∧
          fieldCount fields "headers" ≤ 1 ∧ fieldCount fields "body" ≤ 1 ∧
          fieldCount fields "kv" ≤ 1 then
        ((jGet fields "url").bind decodeStr).bind fun url =>
        ((jGet fields "method").bind decodeStr).bind fun method =>
        ((jGet fields "headers").bind decodeStrMap).bind fun headers =>
        ((jGet fields "body").bind decodeStr).bind fun body =>
        ((jGet fields "kv").bind decodeStrMap).bind fun kv =>
          some ⟨url, method, headers, body, kv⟩
      else none
  | _ => none

/-- `WasmOutput` from the source: the wire message read back from the
guest's stdout. `status` is the `u16` status code. -/
structure WasmOutput where
  body : String
  headers : List (String × String)
  status : Nat
  kv : List (String × String)
deriving DecidableEq

/-- The derived serde `Deserialize` for `WasmOutput`: the four fields are
required; unknown fields (even repeated ones) are ignored; a known field
occurring twice is serde's `duplicate field` error. As for
`WasmInput.fromJson`, the guard-plus-lookup form is failure-for-failure
equivalent to the sequential walk of the generated code once all failures
are conflated into `none`. -/
def WasmOutput.fromJson (j : Json) : Option WasmOutput :=
  match j with
  | Json.obj fields =>
      if fieldCount fields "body" ≤ 1 ∧ fieldCount fields "headers" ≤ 1 ∧
          fieldCount fields "status" ≤ 1 ∧ fieldCount fields "kv" ≤ 1 then
        ((jGet fields "body").bind decodeStr).bind fun body =>
        ((jGet fields "headers").bind decodeStrMap).bind fun headers =>
        ((jGet fields "status").bind decodeU16).bind fun status =>
        ((jGet fields "kv").bind decodeStrMap).bind fun kv =>
          some ⟨body, headers, status, kv⟩
      else none
  | _ => none

/-- The tail of `Runner::run`: parse the harvested stdout (already at the
JSON-value level) into a `WasmOutput`; a serde failure surfaces to the
caller as the `ResponseDecode` error. -/
def Runner.parseOutput (stdoutJson : Json) : Except String WasmOutput :=
  match WasmOutput.fromJson stdoutJson with
  | some o => Except.ok o
  | none => Except.error "ResponseDecode"

/-- The keys of a JSON object, in textual order. -/
def objKeys : Json → Option (List String)
  | Json.obj fields => some (fields.map Prod.fst)
  | _ => none

/-! ### serde_json string serializer for the fragment `WasmInput` uses -/

/-- Lowercase hex digit, as serde_json's escape table uses. -/
def hexDigit (n : Nat) : Char :=
  if n < 10 then Char.ofNat (48 + n) else Char.ofNat (87 + n)

/-- serde_json string escaping for one character: quote and backslash get
a backslash escape, control characters get their short escape or a
`\u00XX` escape, everything else passes through. -/
def escapeChar (c : Char) : List Char :=
  if c = '"' then ['\\', '"']
  else if c = '\\' then ['\\', '\\']
  else if c.toNat < 32 then
    match c.toNat with
    | 8 => ['\\', 'b']
    | 9 => ['\\', 't']
    | 10 => ['\\', 'n']
    | 12 => ['\\', 'f']
    | 13 => ['\\', 'r']
    | n => ['\\', 'u', '0', '0', hexDigit (n / 16), hexDigit (n % 16)]
  else [c]

/-- serde_json: render a string literal with quotes and escaping. -/
def renderString (s : String) : String :=
  String.mk ('"' :: s.data.foldr (fun c acc => escapeChar c ++ acc) ['"'])

/-- A serde map key as the serde_json serializer sees it: either a string
key, or a key of any non-string shape (sequence, bool, ...), which the
serializer rejects with its `key must be a string` error. -/
inductive MapKey where
  | str : String → MapKey
  | nonString : MapKey

/-- serde_json: render one map key; the only failure of the serializer on
the data shapes reachable from `WasmInput` is a non-string key. -/
def renderKey : MapKey → Option String
  | MapKey.str s => some (renderString s)
  | MapKey.nonString => none

/-- serde_json: render a map with string values; fails exactly when some
key is not a string. -/
def renderStrMap (entries : List (MapKey × String)) : Option String :=
  (entries.foldl
      (fun acc p =>
        acc.bind fun parts =>
          (renderKey p.1).map fun ks => parts ++ [ks ++ ":" ++ renderString p.2])
      (some [])).map
    fun parts => "\x7b" ++ String.intercalate "," parts ++ "\x7d"

/-- The keys of a `HashMap<String, String>` entering the serializer are
string keys by construction. -/
def strKeys (m : List (String × String)) : List (MapKey × String) :=
  m.map fun p => (MapKey.str p.1, p.2)

/-- `serde_json::to_string(&WasmInput \x7b ... \x7d)`: the derived
`Serialize` emits the five fields in declaration order; `none` would be a
serialization error (the `Result::Err` that `build_wasm_input` unwraps). -/
def serializeWasmInput (w : WasmInput) : Option String :=
  (renderStrMap (strKeys w.headers)).bind fun hs =>
  (renderStrMap (strKeys w.kv)).bind fun ks =>
    some ("\x7b\"url\":" ++ renderString w.url
      ++ ",\"method\":" ++ renderString w.method
      ++ ",\"headers\":" ++ hs
      ++ ",\"body\":" ++ renderString w.body
      ++ ",\"kv\":" ++ ks ++ "\x7d")

/-- `build_wasm_input` with the request already marshalled: the source
serializes the `WasmInput` and unwraps; `none` models that unwrap
panicking. -/
def build_wasm_input (w : WasmInput) : Option String :=
  serializeWasmInput w

/-! ### Association-list lemmas -/

theorem lookup_cons (a : String) (p : String × String) (l : List (String × String)) :
    List.lookup a (p :: l) = if a = p.1 then some p.2 else List.lookup a l := by
  by_cases h : a = p.1
  · subst h
    simp [List.lookup]
  · have hb : (a == p.1) = false := beq_eq_false_iff_ne.2 h
    simp [List.lookup, hb, h]

theorem insertKV_cons (p : String × String) (rest : List (String × String)) (k v : String) :
    insertKV (p :: rest) k v = if p.1 = k then (k, v) :: rest else p :: insertKV rest k v := by
  by_cases h : p.1 = k
  · simp [insertKV, h]
  · have hb : (p.1 == k) = false := beq_eq_false_iff_ne.2 h
    simp [insertKV, hb, h]

theorem lookup_insertKV (k v : String) (l : List (String × String)) (k' : String) :
    List.lookup k' (insertKV l k v) = if k' = k then some v else List.lookup k' l := by
  induction l with
  | nil =>
      have he : insertKV [] k v = [(k, v)] := rfl
      rw [he, lookup_cons]
  | cons p rest ih =>
      rw [insertKV_cons]
      by_cases hpk : p.1 = k
      · subst hpk
        rw [if_pos rfl]
        by_cases h : k' = p.1 <;> simp [lookup_cons, h]
      · rw [if_neg hpk, lookup_cons]
        by_cases h : k' = p.1
        · have hk : ¬k' = k := fun he2 => hpk (h.symm.trans he2)
          rw [if_pos h, if_neg hk, lookup_cons, if_pos h]
        · rw [if_neg h, ih, lookup_cons]
          by_cases hk : k' = k
          · rw [if_pos hk, if_pos hk]
          · rw [if_neg hk, if_neg hk, if_neg h]

theorem mem_keys_insertKV (l : List (String × String)) (k v x : String) :
    x ∈ (insertKV l k v).map Prod.fst ↔ x = k ∨ x ∈ l.map Prod.fst := by
  induction l with
  | nil => simp [insertKV]
  | cons p rest ih =>
      rw [insertKV_cons]
      by_cases hpk : p.1 = k
      · subst hpk
        rw [if_pos rfl]
        simp only [List.map_cons, List.mem_cons]
        tauto
      · rw [if_neg hpk]
        simp only [List.map_cons, List.mem_cons, ih]
        tauto

theorem nodup_keys_insertKV (l : List (String × String)) (k v : String)
    (h : (l.map Prod.fst).Nodup) : ((insertKV l k v).map Prod.fst).Nodup := by
  induction l with
  | nil => simp [insertKV]
  | cons p rest ih =>
      rw [insertKV_cons]
      by_cases hpk : p.1 = k
      · subst hpk
        simpa using h
      · simp only [List.map_cons, List.nodup_cons] at h
        simp only [hpk, if_false, List.map_cons, List.nodup_cons]
        refine ⟨?_, ih h.2⟩
        intro hx
        rcases (mem_keys_insertKV rest k v p.1).1 hx with h1 | h1
        · exact hpk h1
        · exact h.1 h1

theorem insertKV_of_not_mem (l : List (String × String)) (k v : String)
    (h : k ∉ l.map Prod.fst) : insertKV l k v = l ++ [(k, v)] := by
  induction l with
  | nil => rfl
  | cons p rest ih =>
      simp only [List.map_cons, List.mem_cons, not_or] at h
      have hpk : ¬p.1 = k := fun he => h.1 he.symm
      rw [insertKV_cons]
      simp [hpk, ih h.2]

theorem foldl_bind_none {α β : Type} (G : α → β → Option β) (l : List α) :
    l.foldl (fun acc x => acc.bind fun b => G x b) none = none := by
  induction l with
  | nil => rfl
  | cons x rest ih => simpa [List.foldl] using ih

/-- Specification of the `build_headers_hash` fold relative to an
arbitrary accumulator: when the fold succeeds, keys stay duplicate-free
and each key is bound to the conversion of the last matching header, or
to its binding in the accumulator when no header matches. -/
theorem bhh_fold_spec (headers : List (String × List Nat)) :
    ∀ acc m : List (String × String),
      List.foldl
        (fun acc kv =>
          acc.bind fun parsed => (headerValueToStr kv.2).map fun s => insertKV parsed kv.1 s)
        (some acc) headers = some m →
      ((acc.map Prod.fst).Nodup → (m.map Prod.fst).Nodup) ∧
      ∀ k : String,
        ((headers.filter fun p => p.1 == k) = [] → List.lookup k m = List.lookup k acc) ∧
        (∀ q, (headers.filter fun p => p.1 == k).getLast? = some q →
          List.lookup k m = headerValueToStr q.2) := by
  induction headers with
  | nil =>
      intro acc m h
      simp only [List.foldl_nil, Option.some.injEq] at h
      subst h
      refine ⟨id, fun k => ⟨fun _ => rfl, fun q hq => by simp at hq⟩⟩
  | cons hd rest ih =>
      intro acc m h
      simp only [List.foldl_cons, Option.some_bind] at h
      cases hin : headerValueToStr hd.2 with
      | none =>
          rw [hin] at h
          simp only [Option.map_none'] at h
          rw [foldl_bind_none] at h
          exact absurd h (by simp)
      | some s =>
          rw [hin] at h
          simp only [Option.map_some'] at h
          obtain ⟨ihn, ihl⟩ := ih (insertKV acc hd.1 s) m h
          refine ⟨fun hacc => ihn (nodup_keys_insertKV acc hd.1 s hacc), ?_⟩
          intro k
          by_cases hk : hd.1 = k
          · have hkb : (hd.1 == k) = true := beq_iff_eq.2 hk
            have hfc : List.filter (fun p => p.1 == k) (hd :: rest)
                = hd :: List.filter (fun p => p.1 == k) rest := by
              simp [List.filter_cons, hkb]
            rw [hfc]
            constructor
            · intro habs
              exact absurd habs (by simp)
            · intro q hq
              cases hl : rest.filter (fun p => p.1 == k) with
              | nil =>
                  rw [hl] at hq
                  have hqd : q = hd := by
                    have := hq
                    simp at this
                    exact this.symm
                  subst hqd
                  have := (ihl k).1 hl
                  rw [this, lookup_insertKV, if_pos hk.symm, hin]
              | cons a l2 =>
                  rw [hl, List.getLast?_cons_cons] at hq
                  exact (ihl k).2 q (by rw [hl]; exact hq)
          · have hkb : (hd.1 == k) = false := beq_eq_false_iff_ne.2 hk
            have hfc : List.filter (fun p => p.1 == k) (hd :: rest)
                = List.filter (fun p => p.1 == k) rest := by
              simp [List.filter_cons, hkb]
            rw [hfc]
            constructor
            · intro hnil
              rw [(ihl k).1 hnil, lookup_insertKV, if_neg (fun he => hk he.symm)]
            · exact (ihl k).2

/-- Deserializing the object serialized from a duplicate-free map rebuilds
the map on top of any accumulator disjoint from its keys. -/
theorem decodeStrMap_fold (m : List (String × String)) :
    ∀ acc : List (String × String),
      (m.map Prod.fst).Nodup →
      (∀ k, k ∈ m.map Prod.fst → k ∉ acc.map Prod.fst) →
      List.foldl
        (fun acc p =>
          acc.bind fun mm =>
            match p.2 with
            | Json.str s => some (insertKV mm p.1 s)
            | _ => none)
        (some acc) (m.map fun p => (p.1, Json.str p.2)) = some (acc ++ m) := by
  induction m with
  | nil =>
      intro acc _ _
      simp
  | cons q rest ih =>
      intro acc hnd hdisj
      simp only [List.map_cons, List.foldl_cons, Option.some_bind]
      have hq : insertKV acc q.1 q.2 = acc ++ [(q.1, q.2)] :=
        insertKV_of_not_mem acc q.1 q.2 (hdisj q.1 (by simp))
      simp only [List.map_cons, List.nodup_cons] at hnd
      have hres := ih (acc ++ [(q.1, q.2)]) hnd.2 ?_
      · rw [hq, hres]
        simp
      · intro k hk
        simp only [List.map_append, List.mem_append, not_or]
        refine ⟨hdisj k (by simp [hk]), ?_⟩
        simp only [List.map_cons, List.map_nil, List.mem_singleton]
        intro he
        exact hnd.1 (he ▸ hk)

/-- Round trip for string-to-string maps through the JSON object codec. -/
theorem decodeStrMap_encodeStrMap (m : List (String × String))
    (h : (m.map Prod.fst).Nodup) : decodeStrMap (encodeStrMap m) = some m := by
  have hfold := decodeStrMap_fold m [] h (by simp)
  simpa [decodeStrMap, encodeStrMap] using hfold

/-- The serializer succeeds on every string-keyed map. -/
theorem renderStrMap_strKeys_isSome (m : List (String × String)) :
    ∀ acc : List String,
      (List.foldl
        (fun acc p =>
          acc.bind fun parts =>
            (renderKey p.1).map fun ks => parts ++ [ks ++ ":" ++ renderString p.2])
        (some acc) (strKeys m)).isSome = true := by
  induction m with
  | nil => intro acc; simp [strKeys]
  | cons q rest ih =>
      intro acc
      simpa [strKeys, List.foldl_cons, renderKey] using
        ih (acc ++ [renderString q.1 ++ ":" ++ renderString q.2])

/-- The serializer produces a string for every string-keyed map. -/
theorem renderStrMap_strKeys_some (m : List (String × String)) :
    ∃ out, renderStrMap (strKeys m) = some out := by
  have h := renderStrMap_strKeys_isSome m []
  unfold renderStrMap
  cases hm : List.foldl
      (fun acc p =>
        acc.bind fun parts =>
          (renderKey p.1).map fun ks => parts ++ [ks ++ ":" ++ renderString p.2])
      (some []) (strKeys m) with
  | none =>
      rw [hm] at h
      simp at h
  | some parts => exact ⟨_, rfl⟩

/-- Soundness of the extension scan: a successful result exhibits the
last-dot split of the reversed file name. -/
theorem extRevAux_some (r : List Char) :
    ∀ acc out, extRevAux r acc = some out →
      ∃ pre rest, r = pre ++ '.' :: rest ∧ '.' ∉ pre ∧ rest ≠ [] ∧
        out = pre.reverse ++ acc := by
  induction r with
  | nil => intro acc out h; simp [extRevAux] at h
  | cons c r' ih =>
      intro acc out h
      by_cases hc : c = '.'
      · subst hc
        rw [extRevAux, if_pos rfl] at h
        by_cases hr : r' = []
        · rw [if_pos hr] at h
          exact absurd h (by simp)
        · rw [if_neg hr] at h
          refine ⟨[], r', by simp, by simp, hr, ?_⟩
          simpa using h.symm
      · rw [extRevAux, if_neg hc] at h
        obtain ⟨pre, rest, hr, hnd, hne, hout⟩ := ih (c :: acc) out h
        refine ⟨c :: pre, rest, by simp [hr], ?_, hne, ?_⟩
        · simp only [List.mem_cons, not_or]
          exact ⟨fun he => hc he.symm, hnd⟩
        · simp [hout]

/-- Completeness of the extension scan on a last-dot split. -/
theorem extRevAux_complete (pre : List Char) :
    ∀ rest acc, '.' ∉ pre → rest ≠ [] →
      extRevAux (pre ++ '.' :: rest) acc = some (pre.reverse ++ acc) := by
  induction pre with
  | nil =>
      intro rest acc _ hne
      rw [List.nil_append, extRevAux, if_pos rfl, if_neg hne]
      simp
  | cons c pre' ih =>
      intro rest acc hnd hne
      simp only [List.mem_cons, not_or] at hnd
      rw [List.cons_append, extRevAux, if_neg (fun he => hnd.1 he.symm)]
      rw [ih rest (c :: acc) hnd.2 hne]
      simp

/-- A file name yields extension `js` exactly when it ends in `.js` and is
not the bare dotfile name `.js`. -/
theorem extRevAux_js_iff (f : List Char) :
    extRevAux f.reverse [] = some ['j', 's'] ↔
      (['.', 'j', 's'] <:+ f ∧ f ≠ ['.', 'j', 's']) := by
  constructor
  · intro h
    obtain ⟨pre, rest, hr, hnd, hne, hout⟩ := extRevAux_some f.reverse [] ['j', 's'] h
    have hpre : pre.reverse = ['j', 's'] := by simpa using hout.symm
    have hpre' : pre = ['s', 'j'] := by
      have := congrArg List.reverse hpre
      simpa using this
    subst hpre'
    have hf : f = rest.reverse ++ ['.', 'j', 's'] := by
      have := congrArg List.reverse hr
      simpa using this
    constructor
    · exact ⟨rest.reverse, hf.symm⟩
    · intro he
      rw [he] at hf
      have : rest.reverse = [] := by
        have hlen := congrArg List.length hf
        simp at hlen
        simpa using hlen
      exact hne (by simpa using this)
  · rintro ⟨⟨t, ht⟩, hne⟩
    have htne : t ≠ [] := by
      intro he
      rw [he] at ht
      exact hne (by simpa using ht.symm)
    have hrev : f.reverse = ['s', 'j'] ++ '.' :: t.reverse := by
      rw [← ht]
      simp
    rw [hrev, extRevAux_complete ['s', 'j'] t.reverse [] (by simp) (by simpa using htne)]
    simp

/-- Unfolding equation for `WasmOutput.fromJson` on an object. -/
theorem wo_fromJson_obj (fields : List (String × Json)) :
    WasmOutput.fromJson (Json.obj fields)
      = if fieldCount fields "body" ≤ 1 ∧ fieldCount fields "headers" ≤ 1 ∧
            fieldCount fields "status" ≤ 1 ∧ fieldCount fields "kv" ≤ 1 then
          ((jGet fields "body").bind decodeStr).bind fun body =>
          ((jGet fields "headers").bind decodeStrMap).bind fun headers =>
          ((jGet fields "status").bind decodeU16).bind fun status =>
          ((jGet fields "kv").bind decodeStrMap).bind fun kv =>
            some ⟨body, headers, status, kv⟩
        else none := rfl

/-! ### Claim theorems -/

/-- Claim C1: for every `Runner` and input string, `Runner::run` prepares
the guest stdin as the input alone when the runner type is `Wasm`
(`NativeWasm` in the spec), and as
`source ++ "[[[input]]]" ++ input` when the type is `JavaScript`. -/
theorem stdin_preparation (r : Runner) (input : String) :
    (r.runner_type = RunnerHandlerType.Wasm → r.stdinContents input = input) ∧
    (r.runner_type = RunnerHandlerType.JavaScript →
      r.stdinContents input = r.source ++ "[[[input]]]" ++ input) := by
  obtain ⟨t, mo, so⟩ := r
  cases t <;> simp [Runner.stdinContents]

/-- Witness for C1 at two concrete runners. -/
theorem stdin_preparation_witness :
    Runner.stdinContents ⟨RunnerHandlerType.Wasm, ModuleSource.artifactFile "a.wasm", ""⟩ "abc"
        = "abc" ∧
    Runner.stdinContents ⟨RunnerHandlerType.JavaScript, ModuleSource.engineBytes, "srcA"⟩ "abc"
        = "srcA" ++ "[[[input]]]" ++ "abc" :=
  ⟨(stdin_preparation ⟨RunnerHandlerType.Wasm, ModuleSource.artifactFile "a.wasm", ""⟩ "abc").1 rfl,
   (stdin_preparation ⟨RunnerHandlerType.JavaScript, ModuleSource.engineBytes, "srcA"⟩ "abc").2 rfl⟩

/-- Claim C2 counterexample: the path `.js` ends in the three characters
`.js`, yet the classifier returns `false` (NativeWasm), because Rust
`Path::extension` gives a dotfile no extension. -/
theorem is_js_file_dotfile_counterexample :
    ['.', 'j', 's'] <:+ ".js".data ∧ Runner.is_js_file ".js" = false :=
  ⟨⟨[], by decide⟩, by decide⟩

/-- Claim C2 (amended): a path classifies as JavaScript exactly when its
file name (Rust `Path::file_name`: last component, ignoring trailing
slashes and `.` components, excluding `..`) ends in `.js` and is not the
bare dotfile `.js`; every other path classifies as NativeWasm. The
comparison is case-sensitive. -/
theorem is_js_file_iff (p : String) :
    Runner.is_js_file p = true ↔
      ∃ f, fileName p = some f ∧ ['.', 'j', 's'] <:+ f ∧ f ≠ ['.', 'j', 's'] := by
  unfold Runner.is_js_file pathExtension
  cases hf : fileName p with
  | none => simp
  | some f =>
      simp only [Option.some_bind]
      have hmatch : (match extRevAux f.reverse [] with
          | some os_str => os_str == "js".data
          | none => false) = true ↔ extRevAux f.reverse [] = some ['j', 's'] := by
        cases he : extRevAux f.reverse [] with
        | none => simp
        | some os => simp [show "js".data = ['j', 's'] from rfl]
      rw [hmatch, extRevAux_js_iff]
      constructor
      · intro h
        exact ⟨f, rfl, h⟩
      · rintro ⟨f', hf', h⟩
        cases hf'
        exact h

/-- Witness for the amended C2 at a concrete JavaScript path. -/
theorem is_js_file_iff_witness : Runner.is_js_file "a.js" = true :=
  (is_js_file_iff "a.js").2 ⟨['a', '.', 'j', 's'], by decide, ⟨['a'], by decide⟩, by decide⟩

/-- Claim C3 (code evidence): for a header whose value holds a
non-visible-ASCII byte, the value conversion fails and
`build_headers_hash` hits its unchecked `.unwrap()` — modelled as `none`,
a process panic — instead of returning a `HeaderDecode` error. -/
theorem build_headers_hash_panics_on_nontext :
    headerValueToStr [255] = none ∧ build_headers_hash [("x-bin", [255])] = none :=
  ⟨rfl, rfl⟩

/-- Claim C4 (code evidence): for a JavaScript-classified path whose file
is unreadable, `Runner::new` panics through `.expect` — modelled as
`none` — and in particular does not return an `ArtifactRead` error. -/
theorem runner_new_panics_on_unreadable_js :
    Runner.new ⟨fun _ => none, true, fun _ => false⟩ "handler.js" = none ∧
    Runner.new ⟨fun _ => none, true, fun _ => false⟩ "handler.js"
      ≠ some (Except.error CreateError.artifactRead) :=
  ⟨rfl, fun hcon =>
    Option.noConfusion
      (show (none : Option (Except CreateError Runner))
          = some (Except.error CreateError.artifactRead) from hcon)⟩

/-- Claim C5: deserializing the JSON produced by serializing a
`WasmInput` yields the same `WasmInput` back (the decoder looks fields up
by name, so the result is independent of field order), and the serialized
object carries exactly the field names `url`, `method`, `headers`,
`body`, `kv`. -/
theorem wasm_input_round_trip (w : WasmInput)
    (hh : (w.headers.map Prod.fst).Nodup) (hk : (w.kv.map Prod.fst).Nodup) :
    WasmInput.fromJson (WasmInput.toJson w) = some w ∧
    objKeys (WasmInput.toJson w) = some ["url", "method", "headers", "body", "kv"] := by
  constructor
  · have hrep : WasmInput.fromJson (WasmInput.toJson w)
        = (decodeStrMap (encodeStrMap w.headers)).bind fun headers =>
          (decodeStrMap (encodeStrMap w.kv)).bind fun kv =>
            some ⟨w.url, w.method, headers, w.body, kv⟩ := rfl
    rw [hrep, decodeStrMap_encodeStrMap w.headers hh, decodeStrMap_encodeStrMap w.kv hk]
    rfl
  · rfl

/-- Witness for C5 at a concrete request-shaped `WasmInput`. -/
theorem wasm_input_round_trip_witness :
    WasmInput.fromJson
        (WasmInput.toJson ⟨"http://x/y", "POST", [("a", "1")], "hello", [("k", "v")]⟩)
      = some ⟨"http://x/y", "POST", [("a", "1")], "hello", [("k", "v")]⟩ ∧
    objKeys (WasmInput.toJson ⟨"http://x/y", "POST", [("a", "1")], "hello", [("k", "v")]⟩)
      = some ["url", "method", "headers", "body", "kv"] :=
  wasm_input_round_trip ⟨"http://x/y", "POST", [("a", "1")], "hello", [("k", "v")]⟩
    (by decide) (by decide)

/-- Claim C6: `WasmOutput` deserialization ignores unknown fields — an
object carrying each required field once with a decodable value succeeds
whatever unknown fields it also carries (a required field occurring twice
is serde's separate `duplicate field` error, modelled by the occurrence
guard) — and any object missing one of `body`, `headers`, `status`,
`kv` fails with the `ResponseDecode` error. -/
theorem wasm_output_decode_fields :
    (∀ (fields : List (String × Json)) (b : String) (hdrs : List (String × String))
        (s : Nat) (kv : List (String × String)),
        (fieldCount fields "body" ≤ 1 ∧ fieldCount fields "headers" ≤ 1 ∧
         fieldCount fields "status" ≤ 1 ∧ fieldCount fields "kv" ≤ 1) →
        (jGet fields "body").bind decodeStr = some b →
        (jGet fields "headers").bind decodeStrMap = some hdrs →
        (jGet fields "status").bind decodeU16 = some s →
        (jGet fields "kv").bind decodeStrMap = some kv →
        Runner.parseOutput (Json.obj fields) = Except.ok ⟨b, hdrs, s, kv⟩) ∧
    (∀ fields : List (String × Json),
        (jGet fields "body" = none ∨ jGet fields "headers" = none ∨
         jGet fields "status" = none ∨ jGet fields "kv" = none) →
        Runner.parseOutput (Json.obj fields) = Except.error "ResponseDecode") := by
  constructor
  · intro fields b hdrs s kv hdup h1 h2 h3 h4
    have hfj : WasmOutput.fromJson (Json.obj fields) = some ⟨b, hdrs, s, kv⟩ := by
      rw [wo_fromJson_obj, if_pos hdup, h1]
      simp [h2, h3, h4]
    simp [Runner.parseOutput, hfj]
  · intro fields hm
    have hnone : WasmOutput.fromJson (Json.obj fields) = none := by
      rw [wo_fromJson_obj]
      by_cases hg : fieldCount fields "body" ≤ 1 ∧ fieldCount fields "headers" ≤ 1 ∧
          fieldCount fields "status" ≤ 1 ∧ fieldCount fields "kv" ≤ 1
      · rw [if_pos hg]
        rcases hm with h | h | h | h
        · simp [h]
        · cases hb : (jGet fields "body").bind decodeStr <;>
            simp [h, hb]
        · cases hb : (jGet fields "body").bind decodeStr <;>
            cases hhd : (jGet fields "headers").bind decodeStrMap <;>
              simp [h, hb, hhd]
        · cases hb : (jGet fields "body").bind decodeStr <;>
            cases hhd : (jGet fields "headers").bind decodeStrMap <;>
              cases hst : (jGet fields "status").bind decodeU16 <;>
                simp [h, hb, hhd, hst]
      · rw [if_neg hg]
    simp [Runner.parseOutput, hnone]

/-- Witness for C6: a full object with an extra field decodes; an object
missing `headers` is a `ResponseDecode` error. -/
theorem wasm_output_decode_fields_witness :
    Runner.parseOutput (Json.obj
        [("body", Json.str "ok"), ("headers", Json.obj []),
         ("status", Json.num (JNum.int 200)), ("kv", Json.obj []), ("extra", Json.null)])
      = Except.ok ⟨"ok", [], 200, []⟩ ∧
    Runner.parseOutput (Json.obj [("body", Json.str "ok")])
      = Except.error "ResponseDecode" :=
  ⟨wasm_output_decode_fields.1 _ "ok" [] 200 [] (by decide) rfl rfl rfl rfl,
   wasm_output_decode_fields.2 _ (Or.inr (Or.inl rfl))⟩

/-- Claim C7: whenever `build_headers_hash` completes, the produced
mapping has duplicate-free keys and binds every name to the conversion of
the last header with that name in iteration order. -/
theorem build_headers_hash_last_wins (headers : List (String × List Nat))
    (m : List (String × String)) (k : String)
    (hb : build_headers_hash headers = some m) :
    (m.map Prod.fst).Nodup ∧
    List.lookup k m
      = ((headers.filter fun p => p.1 == k).getLast?).bind fun q => headerValueToStr q.2 := by
  obtain ⟨hn, hl⟩ := bhh_fold_spec headers [] m hb
  refine ⟨hn (by simp), ?_⟩
  cases hlast : (headers.filter fun p => p.1 == k).getLast? with
  | none =>
      have hnil : (headers.filter fun p => p.1 == k) = [] :=
        List.getLast?_eq_none_iff.1 hlast
      rw [(hl k).1 hnil]
      rfl
  | some q => simpa using (hl k).2 q hlast

/-- Witness for C7: the repeated header name `x-a` is bound to the later
value `i` (bytes `[105]`), not the earlier `h`. -/
theorem build_headers_hash_last_wins_witness :
    (([("x-a", "i")] : List (String × String)).map Prod.fst).Nodup ∧
    List.lookup "x-a" [("x-a", "i")]
      = ((([("x-a", [104]), ("x-a", [105])] : List (String × List Nat)).filter
            fun p => p.1 == "x-a").getLast?).bind fun q => headerValueToStr q.2 :=
  build_headers_hash_last_wins [("x-a", [104]), ("x-a", [105])] [("x-a", "i")] "x-a" rfl

/-- Claim C8 counterexample: an empty but readable `.js` file produces a
successful `JavaScript` runner whose source is the empty string, refuting
"non-empty source". -/
theorem runner_js_empty_source_counterexample :
    Runner.new ⟨fun _ => some "", true, fun _ => false⟩ "empty.js"
      = some (Except.ok ⟨RunnerHandlerType.JavaScript, ModuleSource.engineBytes, ""⟩) ∧
    (Runner.mk RunnerHandlerType.JavaScript ModuleSource.engineBytes "").source = "" :=
  ⟨rfl, rfl⟩

/-- Claim C8 (amended): every runner successfully produced by
`Runner::new` with the `JavaScript` tag carries the artifact file's
contents as its source — possibly empty — and the module compiled from
the embedded engine bytes; with the `Wasm` tag it carries an empty source
and the module compiled from the artifact file. -/
theorem runner_new_invariants (env : SysEnv) (path : String) (r : Runner)
    (h : Runner.new env path = some (Except.ok r)) :
    (r.runner_type = RunnerHandlerType.JavaScript →
      r.module = ModuleSource.engineBytes ∧ env.readToString path = some r.source) ∧
    (r.runner_type = RunnerHandlerType.Wasm →
      r.module = ModuleSource.artifactFile path ∧ r.source = "") := by
  unfold Runner.new at h
  by_cases hjs : Runner.is_js_file path = true
  · rw [if_pos hjs] at h
    by_cases hec : env.engineCompiles = true
    · rw [if_pos hec] at h
      cases hrd : env.readToString path with
      | none =>
          rw [hrd] at h
          exact absurd h (by simp)
      | some contents =>
          rw [hrd] at h
          injection h with h1
          injection h1 with h2
          subst h2
          exact ⟨fun _ => ⟨rfl, rfl⟩, fun hc => (nomatch hc)⟩
    · rw [if_neg hec] at h
      exact absurd h (by simp)
  · rw [if_neg hjs] at h
    by_cases hfc : env.fileCompiles path = true
    · rw [if_pos hfc] at h
      injection h with h1
      injection h1 with h2
      subst h2
      exact ⟨fun hc => (nomatch hc), fun _ => ⟨rfl, rfl⟩⟩
    · rw [if_neg hfc] at h
      exact absurd h (by simp)

/-- Witness for the amended C8 at a concrete JavaScript artifact. -/
theorem runner_new_invariants_witness :
    (Runner.mk RunnerHandlerType.JavaScript ModuleSource.engineBytes "x").module
        = ModuleSource.engineBytes ∧
    (SysEnv.mk (fun _ => some "x") true (fun _ => false)).readToString "a.js" = some "x" :=
  (runner_new_invariants ⟨fun _ => some "x", true, fun _ => false⟩ "a.js"
      ⟨RunnerHandlerType.JavaScript, ModuleSource.engineBytes, "x"⟩ rfl).1 rfl

/-- Claim C9: serializing a constructed `WasmInput` always succeeds — the
serializer's only failure mode on these shapes, a non-string map key, is
unreachable because both maps carry string keys — so the `.unwrap()` in
`build_wasm_input` never panics. -/
theorem serialize_wasm_input_total (w : WasmInput) :
    (build_wasm_input w).isSome = true := by
  obtain ⟨out1, hh1⟩ := renderStrMap_strKeys_some w.headers
  obtain ⟨out2, hh2⟩ := renderStrMap_strKeys_some w.kv
  unfold build_wasm_input serializeWasmInput
  rw [hh1, hh2]
  rfl

/-- Claim C10: a JSON `status` field that is a negative integer, an
integer above 65535, or a float makes `WasmOutput` deserialization fail
with the `ResponseDecode` error, and a successful decode reports exactly
the in-range integer present in the JSON — never truncated or wrapped. -/
theorem status_decode_strict :
    (∀ (fields : List (String × Json)) (n : Int),
        jGet fields "status" = some (Json.num (JNum.int n)) → (n < 0 ∨ 65535 < n) →
        Runner.parseOutput (Json.obj fields) = Except.error "ResponseDecode") ∧
    (∀ (fields : List (String × Json)) (mant : Int) (e : Nat),
        jGet fields "status" = some (Json.num (JNum.float mant e)) →
        Runner.parseOutput (Json.obj fields) = Except.error "ResponseDecode") ∧
    (∀ (fields : List (String × Json)) (o : WasmOutput),
        Runner.parseOutput (Json.obj fields) = Except.ok o →
        jGet fields "status" = some (Json.num (JNum.int (o.status : Int))) ∧
          o.status ≤ 65535) := by
  refine ⟨?_, ?_, ?_⟩
  · intro fields n hst hn
    have hcond : ¬(0 ≤ n ∧ n ≤ 65535) := by rcases hn with h | h <;> omega
    have hdu : decodeU16 (Json.num (JNum.int n)) = none := by
      simp [decodeU16, hcond]
    have hnone : WasmOutput.fromJson (Json.obj fields) = none := by
      rw [wo_fromJson_obj]
      by_cases hg : fieldCount fields "body" ≤ 1 ∧ fieldCount fields "headers" ≤ 1 ∧
          fieldCount fields "status" ≤ 1 ∧ fieldCount fields "kv" ≤ 1
      · rw [if_pos hg]
        cases hb : (jGet fields "body").bind decodeStr <;>
          cases hhd : (jGet fields "headers").bind decodeStrMap <;>
            simp [hb, hhd, hst, hdu]
      · rw [if_neg hg]
    simp [Runner.parseOutput, hnone]
  · intro fields mant e hst
    have hdu : decodeU16 (Json.num (JNum.float mant e)) = none := rfl
    have hnone : WasmOutput.fromJson (Json.obj fields) = none := by
      rw [wo_fromJson_obj]
      by_cases hg : fieldCount fields "body" ≤ 1 ∧ fieldCount fields "headers" ≤ 1 ∧
          fieldCount fields "status" ≤ 1 ∧ fieldCount fields "kv" ≤ 1
      · rw [if_pos hg]
        cases hb : (jGet fields "body").bind decodeStr <;>
          cases hhd : (jGet fields "headers").bind decodeStrMap <;>
            simp [hb, hhd, hst, hdu]
      · rw [if_neg hg]
    simp [Runner.parseOutput, hnone]
  · intro fields o h
    have hok : WasmOutput.fromJson (Json.obj fields) = some o := by
      cases hf : WasmOutput.fromJson (Json.obj fields) with
      | none =>
          simp [Runner.parseOutput, hf] at h
      | some o2 =>
          simp [Runner.parseOutput, hf] at h
          rw [h]
    rw [wo_fromJson_obj] at hok
    by_cases hg : fieldCount fields "body" ≤ 1 ∧ fieldCount fields "headers" ≤ 1 ∧
        fieldCount fields "status" ≤ 1 ∧ fieldCount fields "kv" ≤ 1
    case neg =>
      rw [if_neg hg] at hok
      exact absurd hok (by simp)
    rw [if_pos hg] at hok
    simp only [Option.bind_eq_some, Option.some.injEq] at hok
    obtain ⟨b, hb, hdrs, hhd, s, hs, kv, hkv, heq⟩ := hok
    obtain ⟨j, hj, hdu⟩ := hs
    have hstat : o.status = s := by rw [← heq]
    cases j with
    | num jn =>
        cases jn with
        | int n =>
            by_cases hc : 0 ≤ n ∧ n ≤ 65535
            · have hsn : s = n.toNat := by
                simp only [decodeU16, if_pos hc, Option.some.injEq] at hdu
                exact hdu.symm
              have hcast : (o.status : Int) = n := by
                rw [hstat, hsn]
                exact Int.toNat_of_nonneg hc.1
              refine ⟨by rw [hj, hcast], ?_⟩
              rw [hstat, hsn]
              omega
            · simp only [decodeU16, if_neg hc] at hdu
              exact Option.noConfusion hdu
        | float mant e => simp [decodeU16] at hdu
    | null => simp [decodeU16] at hdu
    | bool b2 => simp [decodeU16] at hdu
    | str s2 => simp [decodeU16] at hdu
    | arr a2 => simp [decodeU16] at hdu
    | obj o2 => simp [decodeU16] at hdu

/-- Witness for C10: status 70000 is rejected, not truncated. -/
theorem status_decode_strict_witness :
    Runner.parseOutput (Json.obj
        [("body", Json.str ""), ("headers", Json.obj []),
         ("status", Json.num (JNum.int 70000)), ("kv", Json.obj [])])
      = Except.error "ResponseDecode" :=
  status_decode_strict.1 _ 70000 rfl (Or.inr (by norm_num))

end WasmWorkers
